import Mathlib

/-
Verification development for the DwnController dual-decomposition solver
(GPU-accelerated scenario-based stochastic MPC for drinking water networks).

The repository sources available here are the kernel header
(cudaKernalHeader.cuh) and the controller class header (SmpcController.cuh):
they declare the CUDA kernels and the controller operations but contain no
function bodies. Kernel and method behaviour is therefore modelled from the
specification; declaration-level facts (parameter and return types) are
embedded directly from the headers. Scalars are modelled as rationals,
device vectors as functions from indices or as lists, and the per-thread
guard (tid < size) of each CUDA kernel is kept explicit.
-/

namespace DwnController

/-! ## Elementwise dual kernels (C1, C2) -/

/-- Modelled from the spec: body of the CUDA kernel
kernalDualExtrapolationStep (declared in cudaKernalHeader.cuh, body not in
the sources). Each thread tid < size writes
vecDualW[tid] = y[tid] + alpha * (y[tid] - yPrev[tid]) where y is the
current dual and yPrev the previous dual; entries beyond size keep the old
value of the destination buffer. -/
def kernalDualExtrapolationStep (vecDualW vecPrevDual vecCurrentDual : ℕ → ℚ)
    (alpha : ℚ) (size : ℕ) : ℕ → ℚ :=
  fun tid =>
    if tid < size then
      vecCurrentDual tid + alpha * (vecCurrentDual tid - vecPrevDual tid)
    else
      vecDualW tid

/-- Modelled from the spec: body of the CUDA kernel kernalDualUpdate
(declared in cudaKernalHeader.cuh, body not in the sources). Each thread
tid < size writes vecDualY[tid] = w[tid] + stepSize * (hx[tid] - z[tid]);
entries beyond size keep the old value of the destination buffer. -/
def kernalDualUpdate (vecDualY vecDualW vecHX vecZ : ℕ → ℚ)
    (stepSize : ℚ) (size : ℕ) : ℕ → ℚ :=
  fun tid =>
    if tid < size then
      vecDualW tid + stepSize * (vecHX tid - vecZ tid)
    else
      vecDualY tid

/-! ## Parent-to-children redistribution (C4) -/

/-- Children of nonleaf node p in the scenario tree, read off the cumulative
child-count table devNumChildCuml: the children of p are the consecutive
node indices from childCuml p (inclusive) to childCuml (p + 1) (exclusive). -/
def childRange (childCuml : ℕ → ℕ) (p : ℕ) : Finset ℕ :=
  Finset.Ico (childCuml p) (childCuml (p + 1))

/-- Probability mass of the sibling group below nonleaf node p: the sum of
the occurrence probabilities of the direct children of p. -/
def siblingProbSum (prob : ℕ → ℚ) (childCuml : ℕ → ℕ) (p : ℕ) : ℚ :=
  ∑ c ∈ childRange childCuml p, prob c

/-- Modelled from the spec: body of the CUDA kernel calculateZeta (declared
in cudaKernalHeader.cuh, body not in the sources). It converts the
parent-level extrapolation delta deltaUhat into a per-child contribution,
weighted by the relative occurrence probability of the child among its
siblings: for child c of nonleaf node p and control dimension d,
zeta[c][d] = deltaUhat[p][d] * prob[c] / (sum of prob over the siblings). -/
def calculateZeta (deltaUhat : ℕ → ℕ → ℚ) (prob : ℕ → ℚ)
    (childCuml : ℕ → ℕ) (p c d : ℕ) : ℚ :=
  deltaUhat p d * (prob c / siblingProbSum prob childCuml p)

/-! ## Limited-memory quasi-Newton buffer (C6, C7) -/

/-- Inner product of two device vectors held as lists. -/
def dotProduct (a b : List ℚ) : ℚ :=
  (List.zipWith (fun x y => x * y) a b).sum

/-- State of the L-BFGS curvature-pair buffer of SmpcController: the column
matrices devLbfgsBufferMatS and devLbfgsBufferMatY and the vector
lbfgsBufferRho are modelled as maps from slot index to an optional stored
value (none meaning the slot was never written), together with the write
cursor lbfgsBufferCol, the configured memory lbfgsBufferMemory and the
rejection counter lbfgsSkipCount. -/
structure LbfgsBuffer where
  lbfgsBufferMemory : ℕ
  devLbfgsBufferMatS : ℕ → Option (List ℚ)
  devLbfgsBufferMatY : ℕ → Option (List ℚ)
  lbfgsBufferRho : ℕ → Option ℚ
  lbfgsBufferCol : ℕ
  lbfgsSkipCount : ℕ

/-- Modelled from the spec: initaliseLbfgBuffer (declared in
SmpcController.cuh, body not in the sources) clears the buffer at the start
of the algorithm: no slot holds a pair, the write cursor is at column zero
and the skip count is zero. -/
def initaliseLbfgBuffer (m : ℕ) : LbfgsBuffer :=
  { lbfgsBufferMemory := m
    devLbfgsBufferMatS := fun _ => none
    devLbfgsBufferMatY := fun _ => none
    lbfgsBufferRho := fun _ => none
    lbfgsBufferCol := 0
    lbfgsSkipCount := 0 }

/-- Modelled from the spec: updateLbfgsBuffer (declared in
SmpcController.cuh, body not in the sources). Given the candidate curvature
pair s (iterate difference) and y (gradient or residual difference), it
computes the curvature inner product yTs. If yTs is at or below the small
positive threshold the pair is rejected: lbfgsSkipCount increments and
nothing else changes. Otherwise s, y and rho = 1 / yTs are written at the
cursor column and the cursor advances modulo lbfgsBufferMemory. -/
def updateLbfgsBuffer (threshold : ℚ) (buf : LbfgsBuffer)
    (s y : List ℚ) : LbfgsBuffer :=
  let yTs := dotProduct y s
  if yTs ≤ threshold then
    { buf with lbfgsSkipCount := buf.lbfgsSkipCount + 1 }
  else
    let j0 := buf.lbfgsBufferCol % buf.lbfgsBufferMemory
    { buf with
      devLbfgsBufferMatS := fun j =>
        if j = j0 then some s else buf.devLbfgsBufferMatS j
      devLbfgsBufferMatY := fun j =>
        if j = j0 then some y else buf.devLbfgsBufferMatY j
      lbfgsBufferRho := fun j =>
        if j = j0 then some (1 / yTs) else buf.lbfgsBufferRho j
      lbfgsBufferCol := (buf.lbfgsBufferCol + 1) % buf.lbfgsBufferMemory }

/-- Sequence of updateLbfgsBuffer calls starting from a cleared buffer of
memory m, one call per candidate pair (s, y) in order. -/
def applyLbfgsUpdates (threshold : ℚ) (m : ℕ)
    (pairs : List (List ℚ × List ℚ)) : LbfgsBuffer :=
  pairs.foldl (fun b p => updateLbfgsBuffer threshold b p.1 p.2)
    (initaliseLbfgBuffer m)

/-- Candidate pairs passing the curvature condition, in call order. -/
def acceptedLbfgsPairs (threshold : ℚ)
    (pairs : List (List ℚ × List ℚ)) : List (List ℚ × List ℚ) :=
  pairs.filter (fun p => decide (threshold < dotProduct p.2 p.1))

/-! ## Scenario-tree bottom-up reduction (C5) -/

/-- Scenario-tree index tables used read-only by the tree kernels: node
count, per-node ancestor index and per-node stage, with the structural
facts the tree loader guarantees: the root is at stage zero, the ancestor
of each nonroot node precedes it in the node numbering, and each nonroot
node sits one stage below its ancestor. -/
structure ScenarioTreeModel where
  numNodes : ℕ
  ancestor : ℕ → ℕ
  stage : ℕ → ℕ
  stage_zero : stage 0 = 0
  ancestor_lt : ∀ j, 0 < j → j < numNodes → ancestor j < j
  stage_ancestor : ∀ j, 0 < j → j < numNodes → stage j = stage (ancestor j) + 1

/-- Direct children of node i, read off the ancestor table. -/
def childrenList (t : ScenarioTreeModel) (i : ℕ) : List ℕ :=
  (List.range t.numNodes).filter (fun j => decide (0 < j ∧ t.ancestor j = i))

/-- Membership in the children list unfolded. -/
theorem mem_childrenList (t : ScenarioTreeModel) (i c : ℕ) :
    c ∈ childrenList t i ↔ c < t.numNodes ∧ 0 < c ∧ t.ancestor c = i := by
  simp [childrenList, List.mem_filter, List.mem_range]

/-- Brute-force recursive sum over the subtree below node i (the node
itself and all its descendants), computed independently from the ancestor
table: the value at i plus the recursive sums over the direct children. -/
def subtreeSum (t : ScenarioTreeModel) (v : ℕ → ℚ) (i : ℕ) : ℚ :=
  v i + ((childrenList t i).attach.map (fun c => subtreeSum t v c.1)).sum
termination_by t.numNodes - i
decreasing_by
  have hmem := c.2
  rw [mem_childrenList] at hmem
  have hlt := t.ancestor_lt c.1 hmem.2.1 hmem.1
  rw [hmem.2.2] at hlt
  have := hmem.1
  omega

/-- Modelled from the spec: one launch of the CUDA kernel solveSumChildren
(declared in cudaKernalHeader.cuh, body not in the sources) at stage s:
each node of stage s accumulates the sum of the current values of its
direct children into its own value; every other node is untouched. -/
def solveSumChildren (t : ScenarioTreeModel) (s : ℕ) (acc : ℕ → ℚ) :
    ℕ → ℚ :=
  fun i =>
    if i < t.numNodes ∧ t.stage i = s then
      acc i + ((childrenList t i).map acc).sum
    else
      acc i

/-- Host-side stage loop driving solveSumChildren from the leaves upward:
process stage s, then s - 1, ..., down to the root stage 0. -/
def solveSumChildrenFromStage (t : ScenarioTreeModel) :
    ℕ → (ℕ → ℚ) → (ℕ → ℚ)
  | 0, acc => solveSumChildren t 0 acc
  | s + 1, acc => solveSumChildrenFromStage t s (solveSumChildren t (s + 1) acc)

/-- Children sit exactly one stage below their parent. -/
theorem stage_childrenList (t : ScenarioTreeModel) (i c : ℕ)
    (hc : c ∈ childrenList t i) : t.stage c = t.stage i + 1 := by
  rw [mem_childrenList] at hc
  obtain ⟨h1, h2, h3⟩ := hc
  have := t.stage_ancestor c h2 h1
  rw [h3] at this
  exact this

/-- The stage of a node never exceeds its index. -/
theorem stage_le_index (t : ScenarioTreeModel) :
    ∀ j, j < t.numNodes → t.stage j ≤ j := by
  intro j
  induction j using Nat.strong_induction_on with
  | _ j ih =>
    intro hj
    rcases Nat.eq_zero_or_pos j with rfl | hpos
    · exact t.stage_zero.le
    · have ha := t.ancestor_lt j hpos hj
      have hs := t.stage_ancestor j hpos hj
      have hanc := ih (t.ancestor j) ha (lt_trans ha hj)
      omega

/-- A node whose children all already carry their subtree sums, and which
itself still carries its initial value, gets its own subtree sum from one
child accumulation. -/
theorem accumulate_children_eq_subtreeSum (t : ScenarioTreeModel)
    (v acc : ℕ → ℚ) (j : ℕ)
    (hacc : ∀ c ∈ childrenList t j, acc c = subtreeSum t v c) :
    v j + ((childrenList t j).map acc).sum = subtreeSum t v j := by
  rw [subtreeSum]
  congr 1
  rw [List.attach_map_val (childrenList t j) (fun c => subtreeSum t v c)]
  exact congrArg List.sum (List.map_congr_left hacc)

/-- Invariant of the downward stage loop: if the accumulator already holds
subtree sums strictly below stage s and untouched initial values at stages
up to s, then running the loop from stage s down to the root completes the
subtree sums everywhere. -/
theorem solveSumChildrenFromStage_correct (t : ScenarioTreeModel)
    (v : ℕ → ℚ) :
    ∀ s (acc : ℕ → ℚ),
      (∀ j, j < t.numNodes → s < t.stage j → acc j = subtreeSum t v j) →
      (∀ j, j < t.numNodes → t.stage j ≤ s → acc j = v j) →
      ∀ j, j < t.numNodes →
        solveSumChildrenFromStage t s acc j = subtreeSum t v j := by
  intro s
  induction s with
  | zero =>
      intro acc hAbove hFresh j hj
      show solveSumChildren t 0 acc j = subtreeSum t v j
      rw [solveSumChildren]
      by_cases hstage : t.stage j = 0
      · rw [if_pos ⟨hj, hstage⟩, hFresh j hj hstage.le]
        refine accumulate_children_eq_subtreeSum t v acc j ?_
        intro c hc
        have hcn : c < t.numNodes := ((mem_childrenList t j c).mp hc).1
        have hcs := stage_childrenList t j c hc
        exact hAbove c hcn (by omega)
      · rw [if_neg (by tauto)]
        exact hAbove j hj (Nat.pos_of_ne_zero hstage)
  | succ s ih =>
      intro acc hAbove hFresh j hj
      show solveSumChildrenFromStage t s (solveSumChildren t (s + 1) acc) j
          = subtreeSum t v j
      refine ih (solveSumChildren t (s + 1) acc) ?_ ?_ j hj
      · intro i hi hsi
        rw [solveSumChildren]
        by_cases hstage : t.stage i = s + 1
        · rw [if_pos ⟨hi, hstage⟩, hFresh i hi hstage.le]
          refine accumulate_children_eq_subtreeSum t v acc i ?_
          intro c hc
          have hcn : c < t.numNodes := ((mem_childrenList t i c).mp hc).1
          have hcs := stage_childrenList t i c hc
          exact hAbove c hcn (by omega)
        · rw [if_neg (by tauto)]
          exact hAbove i hi (by omega)
      · intro i hi hsi
        rw [solveSumChildren]
        rw [if_neg (by omega)]
        exact hFresh i hi (by omega)

/-! ## Backtracking line searches (C8, C9) -/

/-- Backtracking candidate step sizes along the L-BFGS direction: the
sequence tauMax, tauMax * beta, tauMax * beta^2, ..., largest first, one
entry per backtrack attempt in the budget. -/
def backtrackTaus (tauMax beta : ℚ) (budget : ℕ) : List ℚ :=
  (List.range budget).map (fun i => tauMax * beta ^ i)

/-- Modelled from the spec: computeLineSearchLbfgsUpdate (declared in
SmpcController.cuh, body not in the sources). Backtracking search over the
candidate step sizes, accepting the first (hence largest) tested tau whose
forward-backward envelope merit satisfies the Armijo-type sufficient
decrease meritFbe tau + sigma * tau * decreaseMeasure <= valueFbeYvar
relative to the value at the current iterate; none when the backtrack
budget is exhausted without acceptance. -/
def computeLineSearchLbfgsUpdate (valueFbeYvar : ℚ) (meritFbe : ℚ → ℚ)
    (sigma decreaseMeasure : ℚ) (taus : List ℚ) : Option ℚ :=
  taus.find? (fun tau =>
    decide (meritFbe tau + sigma * tau * decreaseMeasure ≤ valueFbeYvar))

/-- Modelled from the spec: computeLineSearchAmeLbfgsUpdate (declared in
SmpcController.cuh, body not in the sources). Same backtracking scheme with
the cheaper AME merit built on the fixed-point residual in place of the
envelope value. -/
def computeLineSearchAmeLbfgsUpdate (valueAmeYvar : ℚ) (meritAme : ℚ → ℚ)
    (sigma decreaseMeasure : ℚ) (taus : List ℚ) : Option ℚ :=
  taus.find? (fun tau =>
    decide (meritAme tau + sigma * tau * decreaseMeasure ≤ valueAmeYvar))

/-- Per-iteration state of the dual decomposition loop threaded between
iterations: the current and previous dual vectors and the iteration
counter. Deliberately, and faithfully to the data model, no field records
the outcome of a past line search. -/
structure SolverIterState where
  vecCurrentDual : List ℚ
  vecPrevDual : List ℚ
  iterCount : ℕ

/-- Search point chosen from the line-search outcome: an accepted tau moves
from the plain extrapolated point along the L-BFGS direction scaled by tau;
an exhausted search (none) falls back to the plain extrapolated point. -/
def chooseSearchPoint (ls : Option ℚ) (plainPoint lbfgsDir : List ℚ) :
    List ℚ :=
  match ls with
  | some tau => List.zipWith (fun w d => w + tau * d) plainPoint lbfgsDir
  | none => plainPoint

/-- Modelled from the spec: one iteration of an accelerated variant of the
dual decomposition loop around its line search. The new current dual is the
chosen search point, the previous dual rolls over, the iteration counter
advances, and the iteration always returns normally (Except.ok); no error
path exists for an exhausted line search. -/
def runLbfgsIteration (valueYvar : ℚ) (merit : ℚ → ℚ)
    (sigma decreaseMeasure : ℚ) (taus : List ℚ)
    (plainPoint lbfgsDir : List ℚ) (st : SolverIterState) :
    Except String SolverIterState :=
  Except.ok
    { vecCurrentDual :=
        chooseSearchPoint
          (computeLineSearchLbfgsUpdate valueYvar merit sigma decreaseMeasure taus)
          plainPoint lbfgsDir
      vecPrevDual := st.vecCurrentDual
      iterCount := st.iterCount + 1 }

/-! ## Proximal operator (C10) -/

/-- Elementwise clamp of a vector to box bounds, the list form of the
projectionBox and projectionControl kernels declared in
cudaKernalHeader.cuh. -/
def projectionBoxVec (vecX lowerbound upperbound : List ℚ) : List ℚ :=
  List.zipWith max lowerbound (List.zipWith min upperbound vecX)

/-- Controller state slice around proximalFunG: the extrapolated
(accelerated) dual pair it reads, the primal and dual image pairs and the
three objective-contribution scalars it writes, and iteration state fields
(current duals, iteration counter) that it must not read. -/
structure ProxState where
  devVecAcceleratedXi : List ℚ
  devVecAcceleratedPsi : List ℚ
  devVecPrimalXi : List ℚ
  devVecPrimalPsi : List ℚ
  devVecDualXi : List ℚ
  devVecDualPsi : List ℚ
  valueFunGxBox : ℚ
  valueFunGxSafe : ℚ
  valueFunGuBox : ℚ
  devVecXi : List ℚ
  devVecPsi : List ℚ
  iterCount : ℕ

/-- Modelled from the spec: proximalFunG (declared in SmpcController.cuh,
body not in the sources). It computes the primal image pair from the
extrapolated dual point w alone and the dual image pair by closed-form
projection onto the static bounds (state box, safe-volume one-sided bound,
control box), and sets the three accumulated objective-contribution
scalars, each a function of w and the bounds only. No iteration state is
read or written. -/
def proximalFunG (xmin xmax xsafe umin umax : List ℚ) (st : ProxState) :
    ProxState :=
  let boxXi := projectionBoxVec st.devVecAcceleratedXi xmin xmax
  let zXi := List.zipWith max xsafe boxXi
  let zPsi := projectionBoxVec st.devVecAcceleratedPsi umin umax
  { st with
    devVecPrimalXi := st.devVecAcceleratedXi
    devVecPrimalPsi := st.devVecAcceleratedPsi
    devVecDualXi := zXi
    devVecDualPsi := zPsi
    valueFunGxBox := boxXi.sum
    valueFunGxSafe := zXi.sum
    valueFunGuBox := zPsi.sum }

/-! ## Declared controller signatures (C3) -/

/-- Scalar types appearing in the declarations of SmpcController.cuh. -/
inductive CppScalarType where
  | voidT
  | uintT
  | realT
  | realPtrT
  deriving DecidableEq, Repr

/-- Embedded from SmpcController.cuh: the declared return type of each
controller method relevant to the solver loop, exactly as written in the
header. -/
def declaredReturnType : String → Option CppScalarType
  | "controlAction" => some CppScalarType.uintT
  | "algorithmApg" => some CppScalarType.uintT
  | "algorithmGlobalFbe" => some CppScalarType.uintT
  | "algorithmNama" => some CppScalarType.uintT
  | "computeValueFbe" => some CppScalarType.realT
  | "updatePrimalInfeasibity" => some CppScalarType.realT
  | "computeLineSearchLbfgsUpdate" => some CppScalarType.realT
  | "computeLineSearchAmeLbfgsUpdate" => some CppScalarType.realT
  | "dualExtrapolationStep" => some CppScalarType.voidT
  | "proximalFunG" => some CppScalarType.voidT
  | "dualUpdate" => some CppScalarType.voidT
  | "getValueFbe" => some CppScalarType.realPtrT
  | _ => none

/-! ## Theorems for C1 and C2 -/

/-- Claim C1: for every input vector pair (y, yPrev) of the given length and
every coefficient alpha, the dual extrapolation kernel computes
w = y + alpha * (y - yPrev) elementwise at every index inside the launch
bound. -/
theorem dualExtrapolation_elementwise
    (vecDualW vecPrevDual vecCurrentDual : ℕ → ℚ) (alpha : ℚ) (size : ℕ)
    (tid : ℕ) (htid : tid < size) :
    kernalDualExtrapolationStep vecDualW vecPrevDual vecCurrentDual alpha size tid
      = vecCurrentDual tid + alpha * (vecCurrentDual tid - vecPrevDual tid) := by
  simp [kernalDualExtrapolationStep, htid]

/-- Witness for C1: the extrapolation kernel evaluated at a concrete input. -/
theorem dualExtrapolation_elementwise_witness :
    (0 : ℕ) < 3 ∧
      kernalDualExtrapolationStep (fun _ => 0) (fun _ => 1) (fun _ => 4) 2 3 0
        = (4 : ℚ) + 2 * (4 - 1) :=
  ⟨by decide,
    dualExtrapolation_elementwise (fun _ => 0) (fun _ => 1) (fun _ => 4) 2 3 0
      (by decide)⟩

/-- Claim C2: for every extrapolated dual point w, primal image pair (hx, z)
of the given length, and step size, the dual ascent kernel computes
yNext = w + stepSize * (hx - z) elementwise at every index inside the launch
bound (all scalars carried at one model precision). -/
theorem dualUpdate_elementwise
    (vecDualY vecDualW vecHX vecZ : ℕ → ℚ) (stepSize : ℚ) (size : ℕ)
    (tid : ℕ) (htid : tid < size) :
    kernalDualUpdate vecDualY vecDualW vecHX vecZ stepSize size tid
      = vecDualW tid + stepSize * (vecHX tid - vecZ tid) := by
  simp [kernalDualUpdate, htid]

/-- Witness for C2: the dual ascent kernel evaluated at a concrete input. -/
theorem dualUpdate_elementwise_witness :
    (1 : ℕ) < 2 ∧
      kernalDualUpdate (fun _ => 0) (fun _ => 5) (fun _ => 3) (fun _ => 1)
        (1 / 2) 2 1 = (5 : ℚ) + (1 / 2) * (3 - 1) :=
  ⟨by decide,
    dualUpdate_elementwise (fun _ => 0) (fun _ => 5) (fun _ => 3) (fun _ => 1)
      (1 / 2) 2 1 (by decide)⟩

/-! ## Theorem for C3 -/

/-- Claim C3 (refuted at declaration level): the three algorithm-variant
routines are declared in SmpcController.cuh with return type uint_t, while
the quantity the claim (and their own doc comments) say they return — the
primal infeasibility scalar — is carried by the class as real_t (see
updatePrimalInfeasibity and computeValueFbe, declared real_t). The declared
return type of each variant routine therefore differs from the scalar type
of the infeasibility it is documented to return. -/
theorem algorithmVariants_return_uint_not_real :
    declaredReturnType "algorithmApg" = some CppScalarType.uintT ∧
    declaredReturnType "algorithmGlobalFbe" = some CppScalarType.uintT ∧
    declaredReturnType "algorithmNama" = some CppScalarType.uintT ∧
    declaredReturnType "updatePrimalInfeasibity" = some CppScalarType.realT ∧
    CppScalarType.uintT ≠ CppScalarType.realT := by
  refine ⟨rfl, rfl, rfl, rfl, ?_⟩
  decide

/-! ## Theorem for C4 -/

/-- Claim C4: for every scenario tree and every parent-level delta vector,
the per-child contributions produced by calculateZeta, weighted by relative
node probability among siblings, sum over all direct children of a node to
exactly the input delta of the parent (whenever the sibling group carries
nonzero probability mass). -/
theorem calculateZeta_conservation
    (deltaUhat : ℕ → ℕ → ℚ) (prob : ℕ → ℚ) (childCuml : ℕ → ℕ)
    (p d : ℕ) (hS : siblingProbSum prob childCuml p ≠ 0) :
    ∑ c ∈ childRange childCuml p, calculateZeta deltaUhat prob childCuml p c d
      = deltaUhat p d := by
  unfold calculateZeta
  rw [← Finset.mul_sum, ← Finset.sum_div]
  rw [show (∑ c ∈ childRange childCuml p, prob c) = siblingProbSum prob childCuml p from rfl]
  rw [div_self hS, mul_one]

/-- Witness for C4: conservation on a concrete two-child sibling group with
unit occurrence weights. -/
theorem calculateZeta_conservation_witness :
    siblingProbSum (fun _ => 1) (fun p => 2 * p) 0 ≠ 0 ∧
      (∑ c ∈ childRange (fun p => 2 * p) 0,
        calculateZeta (fun _ _ => 5) (fun _ => 1) (fun p => 2 * p) 0 c 0) = 5 :=
  ⟨by simp [siblingProbSum, childRange],
    calculateZeta_conservation (fun _ _ => 5) (fun _ => 1) (fun p => 2 * p) 0 0
      (by simp [siblingProbSum, childRange])⟩

/-! ## Theorem for C6 -/

/-- Claim C6: whenever the candidate curvature pair has yTs at or below the
rejection threshold, updateLbfgsBuffer rejects the pair: the write cursor
lbfgsBufferCol is unchanged, no buffer entry (s column, y column or rho) is
overwritten, and lbfgsSkipCount increments by one. -/
theorem updateLbfgsBuffer_rejects_nonpositive_curvature
    (threshold : ℚ) (buf : LbfgsBuffer) (s y : List ℚ)
    (hst : dotProduct y s ≤ threshold) :
    (updateLbfgsBuffer threshold buf s y).lbfgsBufferCol = buf.lbfgsBufferCol ∧
    (updateLbfgsBuffer threshold buf s y).devLbfgsBufferMatS
      = buf.devLbfgsBufferMatS ∧
    (updateLbfgsBuffer threshold buf s y).devLbfgsBufferMatY
      = buf.devLbfgsBufferMatY ∧
    (updateLbfgsBuffer threshold buf s y).lbfgsBufferRho = buf.lbfgsBufferRho ∧
    (updateLbfgsBuffer threshold buf s y).lbfgsSkipCount
      = buf.lbfgsSkipCount + 1 := by
  simp [updateLbfgsBuffer, hst]

/-- Witness for C6: a synthetic pair with zero curvature inner product is
rejected by a concrete buffer. -/
theorem updateLbfgsBuffer_rejects_witness :
    dotProduct [0] [2] ≤ (0 : ℚ) ∧
    (updateLbfgsBuffer 0 (initaliseLbfgBuffer 3) [2] [0]).lbfgsBufferCol
      = (initaliseLbfgBuffer 3).lbfgsBufferCol ∧
    (updateLbfgsBuffer 0 (initaliseLbfgBuffer 3) [2] [0]).lbfgsSkipCount
      = (initaliseLbfgBuffer 3).lbfgsSkipCount + 1 := by
  have h : dotProduct [0] [2] ≤ (0 : ℚ) := by simp [dotProduct]
  have hr := updateLbfgsBuffer_rejects_nonpositive_curvature 0
    (initaliseLbfgBuffer 3) [2] [0] h
  exact ⟨h, hr.1, hr.2.2.2.2⟩

/-! ## Theorem for C7 -/

/-- Two indices strictly less than one ring length apart have distinct
residues modulo the ring length. -/
theorem mod_ne_mod_of_close (m i k : ℕ) (h1 : i < k) (h2 : k < i + m) :
    i % m ≠ k % m := by
  intro heq
  have hdvd : m ∣ k - i := (Nat.modEq_iff_dvd' h1.le).mp heq
  have hle : m ≤ k - i := Nat.le_of_dvd (by omega) hdvd
  omega

/-- Claim C7: over any sequence of buffer operations starting from a cleared
buffer, writing only to the accepted pairs (the rejected ones touch nothing
but the skip count), the buffer never holds more than lbfgsBufferMemory
valid pairs: with k accepted updates it holds exactly min(k, m) pairs (slot
j is valid exactly when j < k, for j < m, and slots at or beyond m are never
written), the write cursor equals k modulo m, and each of the last min(k, m)
accepted pairs, indexed i, sits in slot i modulo m — the ring order — so the
valid content is exactly the m most recently accepted pairs. -/
theorem lbfgsBuffer_ring_capacity
    (threshold : ℚ) (m : ℕ) (pairs : List (List ℚ × List ℚ)) (hm : 0 < m) :
    (applyLbfgsUpdates threshold m pairs).lbfgsBufferMemory = m ∧
    (applyLbfgsUpdates threshold m pairs).lbfgsBufferCol
      = (acceptedLbfgsPairs threshold pairs).length % m ∧
    (∀ j, j < m →
      (((applyLbfgsUpdates threshold m pairs).devLbfgsBufferMatS j).isSome
        ↔ j < (acceptedLbfgsPairs threshold pairs).length)) ∧
    (∀ j, m ≤ j →
      (applyLbfgsUpdates threshold m pairs).devLbfgsBufferMatS j = none) ∧
    (∀ i, (acceptedLbfgsPairs threshold pairs).length - m ≤ i →
      i < (acceptedLbfgsPairs threshold pairs).length →
      (applyLbfgsUpdates threshold m pairs).devLbfgsBufferMatS (i % m)
        = some ((acceptedLbfgsPairs threshold pairs).getD i ([], [])).1 ∧
      (applyLbfgsUpdates threshold m pairs).devLbfgsBufferMatY (i % m)
        = some ((acceptedLbfgsPairs threshold pairs).getD i ([], [])).2) := by
  induction pairs using List.reverseRecOn with
  | nil =>
      refine ⟨rfl, by simp [applyLbfgsUpdates, acceptedLbfgsPairs, initaliseLbfgBuffer], ?_, ?_, ?_⟩
      · intro j _
        simp [applyLbfgsUpdates, acceptedLbfgsPairs, initaliseLbfgBuffer]
      · intro j _
        simp [applyLbfgsUpdates, initaliseLbfgBuffer]
      · intro i _ h2
        simp [acceptedLbfgsPairs] at h2
  | append_singleton l p ih =>
      obtain ⟨ihMem, ihCol, ihSome, ihNone, ihWin⟩ := ih
      have hfold : applyLbfgsUpdates threshold m (l ++ [p])
          = updateLbfgsBuffer threshold (applyLbfgsUpdates threshold m l) p.1 p.2 := by
        simp [applyLbfgsUpdates, List.foldl_append]
      by_cases hrej : dotProduct p.2 p.1 ≤ threshold
      · -- the last pair is rejected: storage, cursor and accepted list unchanged
        have hneg : ¬ threshold < dotProduct p.2 p.1 := not_lt.mpr hrej
        have hA : acceptedLbfgsPairs threshold (l ++ [p])
            = acceptedLbfgsPairs threshold l := by
          simp [acceptedLbfgsPairs, List.filter_append, hneg]
        have hS : (applyLbfgsUpdates threshold m (l ++ [p])).devLbfgsBufferMatS
            = (applyLbfgsUpdates threshold m l).devLbfgsBufferMatS := by
          rw [hfold]; simp [updateLbfgsBuffer, hrej]
        have hY : (applyLbfgsUpdates threshold m (l ++ [p])).devLbfgsBufferMatY
            = (applyLbfgsUpdates threshold m l).devLbfgsBufferMatY := by
          rw [hfold]; simp [updateLbfgsBuffer, hrej]
        have hC : (applyLbfgsUpdates threshold m (l ++ [p])).lbfgsBufferCol
            = (applyLbfgsUpdates threshold m l).lbfgsBufferCol := by
          rw [hfold]; simp [updateLbfgsBuffer, hrej]
        have hM : (applyLbfgsUpdates threshold m (l ++ [p])).lbfgsBufferMemory
            = (applyLbfgsUpdates threshold m l).lbfgsBufferMemory := by
          rw [hfold]; simp [updateLbfgsBuffer, hrej]
        refine ⟨hM.trans ihMem, ?_, ?_, ?_, ?_⟩
        · rw [hC, hA]; exact ihCol
        · intro j hj; rw [hS, hA]; exact ihSome j hj
        · intro j hj; rw [hS]; exact ihNone j hj
        · intro i h1 h2
          rw [hS, hY, hA]
          rw [hA] at h1 h2
          exact ihWin i h1 h2
      · -- the last pair is accepted: it is written at the cursor column
        have hlt : threshold < dotProduct p.2 p.1 := not_le.mp hrej
        have hA : acceptedLbfgsPairs threshold (l ++ [p])
            = acceptedLbfgsPairs threshold l ++ [p] := by
          simp [acceptedLbfgsPairs, List.filter_append, hlt]
        have hcol2 : (applyLbfgsUpdates threshold m l).lbfgsBufferCol
            % (applyLbfgsUpdates threshold m l).lbfgsBufferMemory
            = (acceptedLbfgsPairs threshold l).length % m := by
          rw [ihMem, ihCol]
          exact Nat.mod_eq_of_lt (Nat.mod_lt _ hm)
        have hS : (applyLbfgsUpdates threshold m (l ++ [p])).devLbfgsBufferMatS
            = fun j => if j = (acceptedLbfgsPairs threshold l).length % m
                then some p.1
                else (applyLbfgsUpdates threshold m l).devLbfgsBufferMatS j := by
          rw [hfold]; simp [updateLbfgsBuffer, hrej, hcol2]
        have hY : (applyLbfgsUpdates threshold m (l ++ [p])).devLbfgsBufferMatY
            = fun j => if j = (acceptedLbfgsPairs threshold l).length % m
                then some p.2
                else (applyLbfgsUpdates threshold m l).devLbfgsBufferMatY j := by
          rw [hfold]; simp [updateLbfgsBuffer, hrej, hcol2]
        have hC : (applyLbfgsUpdates threshold m (l ++ [p])).lbfgsBufferCol
            = ((acceptedLbfgsPairs threshold l).length + 1) % m := by
          rw [hfold]
          simp [updateLbfgsBuffer, hrej, ihMem, ihCol, Nat.mod_add_mod]
        have hM : (applyLbfgsUpdates threshold m (l ++ [p])).lbfgsBufferMemory
            = m := by
          rw [hfold]
          simp [updateLbfgsBuffer, hrej, ihMem]
        refine ⟨hM, ?_, ?_, ?_, ?_⟩
        · rw [hC, hA]; simp
        · intro j hj
          have hlen : (acceptedLbfgsPairs threshold (l ++ [p])).length
              = (acceptedLbfgsPairs threshold l).length + 1 := by
            rw [hA]; simp
          rw [hS, hlen]
          show (if j = (acceptedLbfgsPairs threshold l).length % m then some p.1
              else (applyLbfgsUpdates threshold m l).devLbfgsBufferMatS j).isSome
            = true ↔ j < (acceptedLbfgsPairs threshold l).length + 1
          by_cases hj0 : j = (acceptedLbfgsPairs threshold l).length % m
          · rw [if_pos hj0]
            have hle := Nat.mod_le (acceptedLbfgsPairs threshold l).length m
            simp only [Option.isSome_some, true_iff]
            omega
          · rw [if_neg hj0, ihSome j hj]
            constructor
            · intro h; omega
            · intro h
              rcases Nat.lt_or_ge j (acceptedLbfgsPairs threshold l).length with h2 | h2
              · exact h2
              · exfalso
                have hjeq : j = (acceptedLbfgsPairs threshold l).length := by omega
                exact hj0 (by rw [hjeq, Nat.mod_eq_of_lt (hjeq ▸ hj)])
        · intro j hj
          rw [hS]
          have hmod : (acceptedLbfgsPairs threshold l).length % m < m :=
            Nat.mod_lt _ hm
          show (if j = (acceptedLbfgsPairs threshold l).length % m then some p.1
              else (applyLbfgsUpdates threshold m l).devLbfgsBufferMatS j) = none
          rw [if_neg (by omega)]
          exact ihNone j hj
        · intro i h1 h2
          rw [hA] at h1 h2 ⊢
          simp only [List.length_append, List.length_cons, List.length_nil] at h1 h2
          rcases Nat.lt_or_ge i (acceptedLbfgsPairs threshold l).length with hi | hi
          · -- an older pair still inside the window: its slot is untouched
            have hne : i % m ≠ (acceptedLbfgsPairs threshold l).length % m :=
              mod_ne_mod_of_close m i (acceptedLbfgsPairs threshold l).length hi
                (by omega)
            have hwin := ihWin i (by omega) hi
            rw [hS, hY]
            constructor
            · show (if i % m = (acceptedLbfgsPairs threshold l).length % m
                  then some p.1
                  else (applyLbfgsUpdates threshold m l).devLbfgsBufferMatS (i % m))
                = _
              rw [if_neg hne, hwin.1, List.getD_append _ _ _ _ hi]
            · show (if i % m = (acceptedLbfgsPairs threshold l).length % m
                  then some p.2
                  else (applyLbfgsUpdates threshold m l).devLbfgsBufferMatY (i % m))
                = _
              rw [if_neg hne, hwin.2, List.getD_append _ _ _ _ hi]
          · -- the newly accepted pair, written at the cursor column
            have hieq : i = (acceptedLbfgsPairs threshold l).length := by omega
            subst hieq
            rw [hS, hY]
            constructor
            · show (if (acceptedLbfgsPairs threshold l).length % m
                    = (acceptedLbfgsPairs threshold l).length % m
                  then some p.1
                  else (applyLbfgsUpdates threshold m l).devLbfgsBufferMatS
                    ((acceptedLbfgsPairs threshold l).length % m)) = _
              rw [if_pos rfl, List.getD_append_right _ _ _ _ (le_refl _)]
              simp
            · show (if (acceptedLbfgsPairs threshold l).length % m
                    = (acceptedLbfgsPairs threshold l).length % m
                  then some p.2
                  else (applyLbfgsUpdates threshold m l).devLbfgsBufferMatY
                    ((acceptedLbfgsPairs threshold l).length % m)) = _
              rw [if_pos rfl, List.getD_append_right _ _ _ _ (le_refl _)]
              simp

/-- Concrete run for the C7 witness: three candidate curvature pairs, all
with positive curvature inner product. -/
def c7Pairs : List (List ℚ × List ℚ) :=
  [([1], [1]), ([2], [2]), ([3], [3])]

/-- Witness for C7: the ring invariant instantiated on a concrete run of
three accepted updates into a buffer of memory two. -/
theorem lbfgsBuffer_ring_capacity_witness :
    (0 : ℕ) < 2 ∧
    ((applyLbfgsUpdates 0 2 c7Pairs).lbfgsBufferMemory = 2 ∧
      (applyLbfgsUpdates 0 2 c7Pairs).lbfgsBufferCol
        = (acceptedLbfgsPairs 0 c7Pairs).length % 2 ∧
      (∀ j, j < 2 →
        (((applyLbfgsUpdates 0 2 c7Pairs).devLbfgsBufferMatS j).isSome
          ↔ j < (acceptedLbfgsPairs 0 c7Pairs).length)) ∧
      (∀ j, 2 ≤ j →
        (applyLbfgsUpdates 0 2 c7Pairs).devLbfgsBufferMatS j = none) ∧
      (∀ i, (acceptedLbfgsPairs 0 c7Pairs).length - 2 ≤ i →
        i < (acceptedLbfgsPairs 0 c7Pairs).length →
        (applyLbfgsUpdates 0 2 c7Pairs).devLbfgsBufferMatS (i % 2)
          = some ((acceptedLbfgsPairs 0 c7Pairs).getD i ([], [])).1 ∧
        (applyLbfgsUpdates 0 2 c7Pairs).devLbfgsBufferMatY (i % 2)
          = some ((acceptedLbfgsPairs 0 c7Pairs).getD i ([], [])).2)) :=
  ⟨by decide, lbfgsBuffer_ring_capacity 0 2 c7Pairs (by decide)⟩

/-! ## Theorem for C5 -/

/-- Claim C5: for every scenario tree, applying the child-to-parent
reduction kernel stage by stage from the leaves upward (from the deepest
possible stage down to the root stage) yields, at every node, the same
value as the brute-force recursive sum over the subtree of that node
computed independently from the ancestor table. -/
theorem solveSumChildren_bottomUp_matches_bruteforce
    (t : ScenarioTreeModel) (v : ℕ → ℚ) (i : ℕ) (hi : i < t.numNodes) :
    solveSumChildrenFromStage t (t.numNodes - 1) v i = subtreeSum t v i := by
  refine solveSumChildrenFromStage_correct t v (t.numNodes - 1) v ?_ ?_ i hi
  · intro j hj hsj
    exfalso
    have := stage_le_index t j hj
    omega
  · intro j _ _
    rfl

/-- Concrete two-stage tree for the C5 witness: one root with two
children. -/
def c5Tree : ScenarioTreeModel :=
  { numNodes := 3
    ancestor := fun _ => 0
    stage := fun j => if j = 0 then 0 else 1
    stage_zero := rfl
    ancestor_lt := fun _ hj _ => hj
    stage_ancestor := fun j hj _ => by
      have hne : j ≠ 0 := Nat.pos_iff_ne_zero.mp hj
      simp [hne] }

/-- Witness for C5: the staged reduction on the concrete two-stage tree
agrees with the brute-force subtree sum at the root. -/
theorem solveSumChildren_bottomUp_witness :
    (0 : ℕ) < c5Tree.numNodes ∧
      solveSumChildrenFromStage c5Tree (c5Tree.numNodes - 1) (fun _ => 1) 0
        = subtreeSum c5Tree (fun _ => 1) 0 :=
  ⟨by decide,
    solveSumChildren_bottomUp_matches_bruteforce c5Tree (fun _ => 1) 0
      (by decide)⟩

/-! ## Theorems for C8, C9, C10 -/

/-- Backtracking candidates are nonnegative when the initial step size and
the backtrack factor are. -/
theorem backtrackTaus_nonneg (tauMax beta : ℚ) (budget : ℕ)
    (h1 : 0 ≤ tauMax) (h2 : 0 ≤ beta) :
    ∀ tau ∈ backtrackTaus tauMax beta budget, 0 ≤ tau := by
  intro tau htau
  simp only [backtrackTaus, List.mem_map, List.mem_range] at htau
  obtain ⟨i, _, rfl⟩ := htau
  exact mul_nonneg h1 (pow_nonneg h2 i)

/-- Claim C8: for both line searches (FBE merit and AME merit), any accepted
step size tau satisfies the Armijo-type sufficient-decrease condition by
construction of the acceptance test, and in particular never increases the
respective merit value relative to its value at the current iterate. -/
theorem lineSearch_monotone_acceptance
    (valueFbeYvar valueAmeYvar : ℚ) (meritFbe meritAme : ℚ → ℚ)
    (sigma decreaseMeasure tauMax beta : ℚ) (budget : ℕ)
    (hsig : 0 ≤ sigma) (hdec : 0 ≤ decreaseMeasure)
    (htmax : 0 ≤ tauMax) (hbeta : 0 ≤ beta) :
    (∀ tau,
      computeLineSearchLbfgsUpdate valueFbeYvar meritFbe sigma decreaseMeasure
        (backtrackTaus tauMax beta budget) = some tau →
      meritFbe tau + sigma * tau * decreaseMeasure ≤ valueFbeYvar ∧
        meritFbe tau ≤ valueFbeYvar) ∧
    (∀ tau,
      computeLineSearchAmeLbfgsUpdate valueAmeYvar meritAme sigma decreaseMeasure
        (backtrackTaus tauMax beta budget) = some tau →
      meritAme tau + sigma * tau * decreaseMeasure ≤ valueAmeYvar ∧
        meritAme tau ≤ valueAmeYvar) := by
  constructor
  · intro tau hfind
    have hpred := List.find?_some hfind
    have harmijo : meritFbe tau + sigma * tau * decreaseMeasure ≤ valueFbeYvar :=
      of_decide_eq_true hpred
    have hmem := List.mem_of_find?_eq_some hfind
    have htau : 0 ≤ tau := backtrackTaus_nonneg tauMax beta budget htmax hbeta tau hmem
    have hnn : 0 ≤ sigma * tau * decreaseMeasure :=
      mul_nonneg (mul_nonneg hsig htau) hdec
    exact ⟨harmijo, by linarith⟩
  · intro tau hfind
    have hpred := List.find?_some hfind
    have harmijo : meritAme tau + sigma * tau * decreaseMeasure ≤ valueAmeYvar :=
      of_decide_eq_true hpred
    have hmem := List.mem_of_find?_eq_some hfind
    have htau : 0 ≤ tau := backtrackTaus_nonneg tauMax beta budget htmax hbeta tau hmem
    have hnn : 0 ≤ sigma * tau * decreaseMeasure :=
      mul_nonneg (mul_nonneg hsig htau) hdec
    exact ⟨harmijo, by linarith⟩

/-- Witness for C8: monotone acceptance instantiated at concrete search
parameters. -/
theorem lineSearch_monotone_acceptance_witness :
    (0 : ℚ) ≤ 0 ∧ (0 : ℚ) ≤ 1 ∧
    ((∀ tau,
      computeLineSearchLbfgsUpdate 0 (fun _ => 0) 0 0
        (backtrackTaus 1 1 2) = some tau →
      (fun _ => (0 : ℚ)) tau + 0 * tau * 0 ≤ 0 ∧
        (fun _ => (0 : ℚ)) tau ≤ 0) ∧
    (∀ tau,
      computeLineSearchAmeLbfgsUpdate 0 (fun _ => 0) 0 0
        (backtrackTaus 1 1 2) = some tau →
      (fun _ => (0 : ℚ)) tau + 0 * tau * 0 ≤ 0 ∧
        (fun _ => (0 : ℚ)) tau ≤ 0)) :=
  ⟨le_refl 0, zero_le_one,
    lineSearch_monotone_acceptance 0 0 (fun _ => 0) (fun _ => 0) 0 0 1 1 2
      (le_refl 0) (le_refl 0) zero_le_one zero_le_one⟩

/-- Claim C9: when a line search exhausts its backtrack budget without
accepting any tested tau, the iteration uses the plain non-accelerated
extrapolation point for that iteration, the iteration returns normally
(Except.ok, counter advanced) rather than aborting, and the resulting state
is identical to the state any other exhausted search would produce — so the
exhaustion leaves no trace that could affect the direction choice of a
subsequent iteration. -/
theorem lineSearch_exhaustion_fallback
    (v1 v2 : ℚ) (m1 m2 : ℚ → ℚ) (sg1 sg2 dm1 dm2 : ℚ)
    (taus1 taus2 : List ℚ) (plainPoint dir1 dir2 : List ℚ)
    (st : SolverIterState)
    (h1 : computeLineSearchLbfgsUpdate v1 m1 sg1 dm1 taus1 = none)
    (h2 : computeLineSearchLbfgsUpdate v2 m2 sg2 dm2 taus2 = none) :
    runLbfgsIteration v1 m1 sg1 dm1 taus1 plainPoint dir1 st
      = Except.ok
          { vecCurrentDual := plainPoint
            vecPrevDual := st.vecCurrentDual
            iterCount := st.iterCount + 1 } ∧
    runLbfgsIteration v1 m1 sg1 dm1 taus1 plainPoint dir1 st
      = runLbfgsIteration v2 m2 sg2 dm2 taus2 plainPoint dir2 st := by
  constructor
  · simp [runLbfgsIteration, chooseSearchPoint, h1]
  · simp [runLbfgsIteration, chooseSearchPoint, h1, h2]

/-- Witness for C9: two exhausted searches (empty backtrack budget) produce
the same plain-direction iteration at a concrete state. -/
theorem lineSearch_exhaustion_fallback_witness :
    computeLineSearchLbfgsUpdate 0 (fun _ => 0) 0 0 [] = none ∧
    (runLbfgsIteration 0 (fun _ => 0) 0 0 [] [1, 2] [3] ⟨[0], [0], 4⟩
        = Except.ok
            { vecCurrentDual := [1, 2]
              vecPrevDual := [0]
              iterCount := 4 + 1 } ∧
      runLbfgsIteration 0 (fun _ => 0) 0 0 [] [1, 2] [3] ⟨[0], [0], 4⟩
        = runLbfgsIteration 7 (fun t => t) 1 1 [] [1, 2] [9] ⟨[0], [0], 4⟩) :=
  ⟨rfl,
    lineSearch_exhaustion_fallback 0 7 (fun _ => 0) (fun t => t) 0 1 0 1 [] []
      [1, 2] [3] [9] ⟨[0], [0], 4⟩ rfl rfl⟩

/-- Claim C10: proximalFunG is a pure function of the extrapolated dual
point w and the static bound vectors: on any two controller states agreeing
on w (but possibly differing in every iteration-state field, however many
iterations ran in between), it produces the same primal image pair, the
same dual image pair and the same three accumulated objective
contributions. -/
theorem proximalFunG_pure
    (xmin xmax xsafe umin umax : List ℚ) (s1 s2 : ProxState)
    (hXi : s1.devVecAcceleratedXi = s2.devVecAcceleratedXi)
    (hPsi : s1.devVecAcceleratedPsi = s2.devVecAcceleratedPsi) :
    (proximalFunG xmin xmax xsafe umin umax s1).devVecPrimalXi
      = (proximalFunG xmin xmax xsafe umin umax s2).devVecPrimalXi ∧
    (proximalFunG xmin xmax xsafe umin umax s1).devVecPrimalPsi
      = (proximalFunG xmin xmax xsafe umin umax s2).devVecPrimalPsi ∧
    (proximalFunG xmin xmax xsafe umin umax s1).devVecDualXi
      = (proximalFunG xmin xmax xsafe umin umax s2).devVecDualXi ∧
    (proximalFunG xmin xmax xsafe umin umax s1).devVecDualPsi
      = (proximalFunG xmin xmax xsafe umin umax s2).devVecDualPsi ∧
    (proximalFunG xmin xmax xsafe umin umax s1).valueFunGxBox
      = (proximalFunG xmin xmax xsafe umin umax s2).valueFunGxBox ∧
    (proximalFunG xmin xmax xsafe umin umax s1).valueFunGxSafe
      = (proximalFunG xmin xmax xsafe umin umax s2).valueFunGxSafe ∧
    (proximalFunG xmin xmax xsafe umin umax s1).valueFunGuBox
      = (proximalFunG xmin xmax xsafe umin umax s2).valueFunGuBox := by
  simp [proximalFunG, hXi, hPsi]

/-- First concrete state for the C10 witness: fresh iteration fields. -/
def proxStateA : ProxState :=
  { devVecAcceleratedXi := [2, -3]
    devVecAcceleratedPsi := [5]
    devVecPrimalXi := []
    devVecPrimalPsi := []
    devVecDualXi := []
    devVecDualPsi := []
    valueFunGxBox := 0
    valueFunGxSafe := 0
    valueFunGuBox := 0
    devVecXi := [0, 0]
    devVecPsi := [0]
    iterCount := 0 }

/-- Second concrete state for the C10 witness: same extrapolated dual point
as proxStateA but different iteration state, as after many iterations. -/
def proxStateB : ProxState :=
  { devVecAcceleratedXi := [2, -3]
    devVecAcceleratedPsi := [5]
    devVecPrimalXi := [7]
    devVecPrimalPsi := [8]
    devVecDualXi := [9]
    devVecDualPsi := [10]
    valueFunGxBox := 11
    valueFunGxSafe := 12
    valueFunGuBox := 13
    devVecXi := [14, 15]
    devVecPsi := [16]
    iterCount := 500 }

/-- Witness for C10: the proximal operator gives identical outputs on the
two concrete states that agree only on the extrapolated dual point. -/
theorem proximalFunG_pure_witness :
    proxStateA.devVecAcceleratedXi = proxStateB.devVecAcceleratedXi ∧
    (proximalFunG [0, 0] [1, 1] [0, 0] [0] [4] proxStateA).devVecDualXi
      = (proximalFunG [0, 0] [1, 1] [0, 0] [0] [4] proxStateB).devVecDualXi ∧
    (proximalFunG [0, 0] [1, 1] [0, 0] [0] [4] proxStateA).valueFunGuBox
      = (proximalFunG [0, 0] [1, 1] [0, 0] [0] [4] proxStateB).valueFunGuBox := by
  have h := proximalFunG_pure [0, 0] [1, 1] [0, 0] [0] [4] proxStateA proxStateB
    rfl rfl
  exact ⟨rfl, h.2.2.1, h.2.2.2.2.2.2⟩

end DwnController
